import Mathlib

/-!
# Verification of the Podha Twitter Listener ingestion-and-delivery pipeline

A shallow embedding, in Lean 4, of the core of the Podha-Twitter-Listener
repository: the rate limiter (`src/services/rateLimiter.js`), the query
simplifier (`twitterScraper.js` / `filterEngine.js`), the duplicate filter and
unseen filter (`src/index.js`), the SQLite-backed delivery store
(`src/services/tweetStorage.js`, modelled as a key-indexed row map on the
error-free I/O path), the Nitter fetch fallback (`twitterScraper.js`), the
Discord notification sink (`discordNotifier.js`), and the workflow driver
(`src/index.js`).  External effects (wall-clock time, HTTP transport results,
parsed HTML) are passed in as explicit parameters; everything else follows the
JavaScript source line by line.
-/

namespace Podha

/-- A scraped record, as produced by `TwitterScraper` (see the object literals
built in `searchWithNitter`, `extractTweetsMethod1` and `createDemoTweets`).
Timestamps are modelled as integer milliseconds (the source stores ISO strings
of the same instants). -/
structure Tweet where
  id : String
  text : String
  author : String
  url : String
  timestamp : Int
  source : String
  likes : Nat
  retweets : Nat
deriving DecidableEq

/-! ## RateLimiter (`src/services/rateLimiter.js`) -/

/-- A per-destination rate limit: `requests` is the ceiling, `window` the
window length in milliseconds (`this.limits` entries in the constructor). -/
structure RateLimit where
  requests : Nat
  window : Int
deriving DecidableEq

/-- The fixed configuration from the `RateLimiter` constructor:
twitter 15 per 15 min, discord 50 per min, nitter 30 per min. -/
def limits (service : String) : Option RateLimit :=
  if service = "twitter" then some ⟨15, 15 * 60 * 1000⟩
  else if service = "discord" then some ⟨50, 60 * 1000⟩
  else if service = "nitter" then some ⟨30, 60 * 1000⟩
  else none

/-- The state of `this.requests`: a map from string key to the recorded
timestamp list.  A key the JS `Map` does not hold is the empty list (the code
creates `[]` on first touch, which is observationally the same). -/
def RLState : Type := String → List Int

/-- The key `service:identifier` built at the top of `checkLimit`. -/
def rlKey (service identifier : String) : String := service ++ ":" ++ identifier

/-- `RateLimiter.checkLimit(service, identifier)`, with `now` (`Date.now()`)
passed explicitly.  Prunes timestamps `≤ now - window`, refuses (recording
nothing) when the pruned count has reached the ceiling, otherwise records
`now` and admits. -/
def checkLimit (st : RLState) (service identifier : String) (now : Int) :
    Bool × RLState :=
  match limits service with
  | none => (true, st)
  | some limit =>
    let key := rlKey service identifier
    let windowStart := now - limit.window
    let validRequests := (st key).filter (fun t => decide (windowStart < t))
    if limit.requests ≤ validRequests.length then
      (false, fun k => if k = key then validRequests else st k)
    else
      (true, fun k => if k = key then validRequests ++ [now] else st k)

/-- A sequence of `checkLimit` calls for one `(service, identifier)` pair at
the given call times, returning the list of boolean results and the final
state. -/
def runChecks (st : RLState) (service identifier : String) :
    List Int → List Bool × RLState
  | [] => ([], st)
  | now :: rest =>
    let r := checkLimit st service identifier now
    let r2 := runChecks r.2 service identifier rest
    (r.1 :: r2.1, r2.2)

/-- An element of a list that fails the filter predicate strictly shrinks the
filtered length. -/
theorem length_filter_lt_of_mem {α : Type} {p : α → Bool} {l : List α} {a : α}
    (ha : a ∈ l) (hpa : p a = false) : (l.filter p).length < l.length := by
  induction l with
  | nil => cases ha
  | cons b t ih =>
    rcases List.mem_cons.mp ha with rfl | hat
    · rw [List.filter_cons, hpa]
      exact Nat.lt_succ_of_le (List.length_filter_le _ _)
    · by_cases hb : p b
      · rw [List.filter_cons, if_pos hb]
        exact Nat.succ_lt_succ (ih hat)
      · rw [List.filter_cons, if_neg (by simpa using hb)]
        exact Nat.lt_succ_of_lt (ih hat)

/-- C7 — Window expiry: a `checkLimit` call issued strictly after `windowMs`
has elapsed since the oldest recorded timestamp for that key returns `true`
(the oldest timestamp is pruned and the request is admitted), even if the
window was previously at its ceiling (the stored list may hold up to
`ceiling` timestamps). -/
theorem window_expiry (service identifier : String) (limit : RateLimit)
    (hconf : limits service = some limit) (st : RLState) (now old : Int)
    (hmem : old ∈ st (rlKey service identifier))
    (hold : ∀ t ∈ st (rlKey service identifier), old ≤ t)
    (hcap : (st (rlKey service identifier)).length ≤ limit.requests)
    (helapsed : limit.window < now - old) :
    (checkLimit st service identifier now).1 = true := by
  unfold checkLimit
  rw [hconf]
  have hfail : decide (now - limit.window < old) = false := by
    simp only [decide_eq_false_iff_not, not_lt]
    omega
  have hlt :
      ((st (rlKey service identifier)).filter
        (fun t => decide (now - limit.window < t))).length
        < (st (rlKey service identifier)).length :=
    length_filter_lt_of_mem hmem hfail
  have : ¬ (limit.requests ≤
      ((st (rlKey service identifier)).filter
        (fun t => decide (now - limit.window < t))).length) := by omega
  simp only [if_neg this]

/-- Witness for C7: a discord key holding 50 timestamps at time 0 (at its
ceiling) admits a call at time 70000, one window plus ten seconds later. -/
theorem window_expiry_witness :
    (checkLimit (fun _ => List.replicate 50 (0 : Int)) "discord" "default"
      70000).1 = true :=
  window_expiry "discord" "default" ⟨50, 60 * 1000⟩ rfl
    (fun _ => List.replicate 50 (0 : Int)) 70000 0
    (by simp)
    (by intro t ht; simp [List.eq_of_mem_replicate ht])
    (by simp)
    (by norm_num)

/-- When every timestamp that can be recorded is inside the window of every
call time, no pruning happens and call `i` succeeds exactly when the stored
count plus `i` is still below the ceiling. -/
theorem runChecks_within_window (service identifier : String) (limit : RateLimit)
    (hconf : limits service = some limit) :
    ∀ (ts : List Int) (st : RLState),
      (∀ t ∈ st (rlKey service identifier), ∀ u ∈ ts, u - t < limit.window) →
      (∀ t ∈ ts, ∀ u ∈ ts, u - t < limit.window) →
      (runChecks st service identifier ts).1
        = (List.range ts.length).map
            (fun i =>
              decide ((st (rlKey service identifier)).length + i < limit.requests)) := by
  intro ts
  induction ts with
  | nil => intro st _ _; rfl
  | cons now rest ih =>
    intro st hpre hts
    have hkeep : ∀ t ∈ st (rlKey service identifier),
        decide (now - limit.window < t) = true := by
      intro t ht
      have := hpre t ht now (List.mem_cons_self _ _)
      simp only [decide_eq_true_eq]
      omega
    have hfilter : (st (rlKey service identifier)).filter
        (fun t => decide (now - limit.window < t)) = st (rlKey service identifier) :=
      List.filter_eq_self.mpr hkeep
    by_cases hfull :
        limit.requests ≤ (st (rlKey service identifier)).length
    · -- refused: nothing recorded, state at the key unchanged
      have hstep : checkLimit st service identifier now
          = (false, fun k => if k = rlKey service identifier
              then (st (rlKey service identifier)).filter
                (fun t => decide (now - limit.window < t))
              else st k) := by
        unfold checkLimit
        rw [hconf]
        simp only [hfilter, if_pos hfull]
      have hst' : (fun k => if k = rlKey service identifier
            then (st (rlKey service identifier)).filter
              (fun t => decide (now - limit.window < t))
            else st k) = st := by
        funext k
        by_cases hk : k = rlKey service identifier
        · rw [if_pos hk, hfilter, hk]
        · rw [if_neg hk]
      have htail := ih st
        (by intro t ht u hu; exact hpre t ht u (List.mem_cons_of_mem _ hu))
        (by intro t ht u hu;
            exact hts t (List.mem_cons_of_mem _ ht) u (List.mem_cons_of_mem _ hu))
      show ((checkLimit st service identifier now).1 ::
          (runChecks (checkLimit st service identifier now).2 service identifier rest).1, _).1
        = _
      rw [hstep]
      simp only [hst']
      rw [htail]
      rw [List.length_cons, List.range_succ_eq_map, List.map_cons, List.map_map]
      congr 1
      · exact (by simp only [Nat.add_zero, decide_eq_false_iff_not, not_lt]; omega :
          decide ((st (rlKey service identifier)).length + 0 < limit.requests) = false).symm
      · apply List.map_congr_left
        intro i _
        simp only [Function.comp_apply, decide_eq_decide]
        omega
    · -- admitted: `now` appended at the key
      have hstep : checkLimit st service identifier now
          = (true, fun k => if k = rlKey service identifier
              then ((st (rlKey service identifier)).filter
                (fun t => decide (now - limit.window < t))) ++ [now]
              else st k) := by
        unfold checkLimit
        rw [hconf]
        simp only [hfilter, if_neg hfull]
      have htail := ih (fun k => if k = rlKey service identifier
          then ((st (rlKey service identifier)).filter
            (fun t => decide (now - limit.window < t))) ++ [now]
          else st k)
        (by
          simp only [if_pos rfl, hfilter]
          intro t ht u hu
          rcases List.mem_append.mp ht with h1 | h2
          · exact hpre t h1 u (List.mem_cons_of_mem _ hu)
          · have : t = now := by simpa using h2
            subst this
            exact hts t (List.mem_cons_self _ _) u (List.mem_cons_of_mem _ hu))
        (by intro t ht u hu;
            exact hts t (List.mem_cons_of_mem _ ht) u (List.mem_cons_of_mem _ hu))
      show ((checkLimit st service identifier now).1 ::
          (runChecks (checkLimit st service identifier now).2 service identifier rest).1, _).1
        = _
      have heq : (fun k => if k = rlKey service identifier
            then ((st (rlKey service identifier)).filter
              (fun t => decide (now - limit.window < t))) ++ [now]
            else st k) (rlKey service identifier)
          = st (rlKey service identifier) ++ [now] := by
        simp only [if_pos rfl, if_true, eq_self_iff_true, hfilter]
      rw [hstep]
      rw [htail]
      simp only [heq, if_pos rfl, if_true, eq_self_iff_true, hfilter,
        List.length_append, List.length_singleton]
      rw [List.length_cons, List.range_succ_eq_map, List.map_cons, List.map_map]
      congr 1
      · exact (by simp only [Nat.add_zero, decide_eq_true_eq]; omega :
          decide ((st (rlKey service identifier)).length + 0 < limit.requests) = true).symm
      · apply List.map_congr_left
        intro i _
        simp only [Function.comp_apply, decide_eq_decide]
        omega

/-- The stored list for a key never grows beyond the ceiling over any sequence
of calls, provided it is within the ceiling to begin with (a refused call
records no timestamp; an admitted call starts from a pruned count strictly
below the ceiling). -/
theorem runChecks_length_le (service identifier : String) (limit : RateLimit)
    (hconf : limits service = some limit) :
    ∀ (ts : List Int) (st : RLState),
      (st (rlKey service identifier)).length ≤ limit.requests →
      ((runChecks st service identifier ts).2 (rlKey service identifier)).length
        ≤ limit.requests := by
  intro ts
  induction ts with
  | nil => intro st h; exact h
  | cons now rest ih =>
    intro st h
    show ((runChecks (checkLimit st service identifier now).2 service identifier rest).2
        (rlKey service identifier)).length ≤ limit.requests
    apply ih
    unfold checkLimit
    rw [hconf]
    by_cases hfull : limit.requests ≤
        ((st (rlKey service identifier)).filter
          (fun t => decide (now - limit.window < t))).length
    · simp only [if_pos hfull, if_pos rfl, if_true, eq_self_iff_true]
      calc ((st (rlKey service identifier)).filter
              (fun t => decide (now - limit.window < t))).length
          ≤ (st (rlKey service identifier)).length := List.length_filter_le _ _
        _ ≤ limit.requests := h
    · simp only [if_neg hfull, if_pos rfl, if_true, eq_self_iff_true,
        List.length_append, List.length_singleton]
      have := List.length_filter_le (fun t => decide (now - limit.window < t))
        (st (rlKey service identifier))
      omega

/-- C2 — Rate ceiling enforcement: for a configured destination and a fixed
identifier whose key starts empty, `ceiling + 1` calls issued within one
window return `true` on each of the first `ceiling` calls and `false` on the
last; moreover, after any sequence of calls on that key the stored timestamp
list (hence a fortiori its in-window part) never exceeds the ceiling, because
a refused call records no timestamp. -/
theorem rate_ceiling_enforcement (service identifier : String) (limit : RateLimit)
    (hconf : limits service = some limit) (st : RLState)
    (hempty : st (rlKey service identifier) = [])
    (ts : List Int) (hlen : ts.length = limit.requests + 1)
    (hwin : ∀ t ∈ ts, ∀ u ∈ ts, u - t < limit.window) :
    (runChecks st service identifier ts).1
      = List.replicate limit.requests true ++ [false]
    ∧ ∀ ts2 : List Int,
        ((runChecks st service identifier ts2).2 (rlKey service identifier)).length
          ≤ limit.requests := by
  constructor
  · rw [runChecks_within_window service identifier limit hconf ts st
      (by rw [hempty]; intro t ht; cases ht) hwin]
    rw [hempty, hlen]
    simp only [List.length_nil, Nat.zero_add]
    rw [List.range_succ, List.map_append, List.map_singleton]
    congr 1
    · rw [show (List.replicate limit.requests true)
          = (List.range limit.requests).map (fun _ => true) by
        rw [List.map_const', List.length_range]]
      apply List.map_congr_left
      intro i hi
      simp only [decide_eq_true_eq]
      exact List.mem_range.mp hi
    · simp
  · intro ts2
    exact runChecks_length_le service identifier limit hconf ts2 st
      (by rw [hempty]; exact Nat.zero_le _)

/-- Witness for C2: sixteen calls on the twitter key (ceiling 15) at time 0
give fifteen `true`s then one `false`, and the stored count stays ≤ 15. -/
theorem rate_ceiling_enforcement_witness :
    (runChecks (fun _ => []) "twitter" "default" (List.replicate 16 0)).1
      = List.replicate 15 true ++ [false]
    ∧ ∀ ts2 : List Int,
        ((runChecks (fun _ => []) "twitter" "default" ts2).2
          (rlKey "twitter" "default")).length ≤ 15 :=
  rate_ceiling_enforcement "twitter" "default" ⟨15, 15 * 60 * 1000⟩ rfl
    (fun _ => []) rfl (List.replicate 16 0) (by simp)
    (by
      intro t ht u hu
      have h1 := List.eq_of_mem_replicate ht
      have h2 := List.eq_of_mem_replicate hu
      subst h1; subst h2
      norm_num)

/-! ## DedupFilter: `PodhaTwitterListener.removeDuplicates` (`src/index.js`) -/

/-- The filter body of `removeDuplicates`, with the mutable `seen` set made
explicit: a tweet is kept iff its id is not in `seen`, and a kept id is added
to `seen`. -/
def removeDupAux (seen : List String) : List Tweet → List Tweet
  | [] => []
  | t :: rest =>
    if t.id ∈ seen then removeDupAux seen rest
    else t :: removeDupAux (t.id :: seen) rest

/-- `removeDuplicates(tweets)`: keep the first occurrence of each id. -/
def removeDuplicates (tweets : List Tweet) : List Tweet :=
  removeDupAux [] tweets

theorem removeDupAux_sublist (seen : List String) (L : List Tweet) :
    (removeDupAux seen L).Sublist L := by
  induction L generalizing seen with
  | nil => simp [removeDupAux]
  | cons t rest ih =>
    unfold removeDupAux
    by_cases h : t.id ∈ seen
    · rw [if_pos h]
      exact (ih seen).cons t
    · rw [if_neg h]
      exact (ih (t.id :: seen)).cons₂ t

/-- Restricting the output of the dedup pass to one id yields the first input
occurrence of that id (or nothing if the id is already in `seen`). -/
theorem removeDupAux_filter_id (x : String) (L : List Tweet) :
    ∀ seen : List String,
      (removeDupAux seen L).filter (fun t => t.id == x)
        = if x ∈ seen then [] else (L.filter (fun t => t.id == x)).take 1 := by
  induction L with
  | nil =>
    intro seen
    by_cases h : x ∈ seen <;> simp [removeDupAux, h]
  | cons t rest ih =>
    intro seen
    unfold removeDupAux
    by_cases hseen : t.id ∈ seen
    · rw [if_pos hseen, ih seen]
      by_cases hx : x ∈ seen
      · rw [if_pos hx, if_pos hx]
      · rw [if_neg hx, if_neg hx]
        have htx : (t.id == x) = false := by
          simp only [beq_eq_false_iff_ne, ne_eq]
          intro h; exact hx (h ▸ hseen)
        rw [List.filter_cons, htx]
        simp only [Bool.false_eq_true, if_false]
    · rw [if_neg hseen, List.filter_cons]
      by_cases htx : t.id == x
      · have hxt : x = t.id := (eq_of_beq htx).symm
        rw [htx]
        simp only [if_true]
        rw [ih (t.id :: seen)]
        have hxin : x ∈ t.id :: seen := by rw [hxt]; exact List.mem_cons_self _ _
        rw [if_pos hxin]
        have hxout : x ∉ seen := fun h => hseen (hxt ▸ h)
        rw [if_neg hxout, List.filter_cons, htx]
        simp
      · rw [Bool.not_eq_true] at htx
        rw [htx]
        simp only [Bool.false_eq_true, if_false]
        rw [ih (t.id :: seen)]
        have hxne : x ≠ t.id := by
          intro h
          apply (by simpa using htx : t.id ≠ x)
          exact h.symm
        by_cases hx : x ∈ seen
        · rw [if_pos hx, if_pos (List.mem_cons_of_mem _ hx)]
        · rw [if_neg hx, if_neg (by simp [hxne, hx]), List.filter_cons, htx]
          simp only [Bool.false_eq_true, if_false]

/-- Every tweet in the dedup output has its id outside the ambient `seen`
set. -/
theorem removeDupAux_not_seen (L : List Tweet) :
    ∀ seen : List String, ∀ t ∈ removeDupAux seen L, t.id ∉ seen := by
  induction L with
  | nil => intro seen t ht; cases ht
  | cons u rest ih =>
    intro seen t ht
    unfold removeDupAux at ht
    by_cases h : u.id ∈ seen
    · rw [if_pos h] at ht
      exact ih seen t ht
    · rw [if_neg h] at ht
      rcases List.mem_cons.mp ht with rfl | ht2
      · exact h
      · intro hc
        exact ih (u.id :: seen) t ht2 (List.mem_cons_of_mem _ hc)

/-- The ids in the dedup output are pairwise distinct. -/
theorem removeDupAux_ids_nodup (L : List Tweet) :
    ∀ seen : List String, ((removeDupAux seen L).map Tweet.id).Nodup := by
  induction L with
  | nil => intro seen; simp [removeDupAux]
  | cons u rest ih =>
    intro seen
    unfold removeDupAux
    by_cases h : u.id ∈ seen
    · rw [if_pos h]; exact ih seen
    · rw [if_neg h]
      rw [List.map_cons, List.nodup_cons]
      refine ⟨?_, ih (u.id :: seen)⟩
      intro hc
      rcases List.mem_map.mp hc with ⟨t, ht, hid⟩
      exact removeDupAux_not_seen rest (u.id :: seen) t ht
        (hid ▸ List.mem_cons_self _ _)

/-- A list with pairwise-distinct ids, none of them in `seen`, passes through
the dedup pass unchanged. -/
theorem removeDupAux_fixed (L : List Tweet) :
    ∀ seen : List String, (∀ t ∈ L, t.id ∉ seen) →
      ((L.map Tweet.id).Nodup) → removeDupAux seen L = L := by
  induction L with
  | nil => intro seen _ _; rfl
  | cons u rest ih =>
    intro seen hout hnodup
    unfold removeDupAux
    rw [if_neg (hout u (List.mem_cons_self _ _))]
    congr 1
    rw [List.map_cons, List.nodup_cons] at hnodup
    apply ih (u.id :: seen) _ hnodup.2
    intro t ht hc
    rcases List.mem_cons.mp hc with h1 | h2
    · exact hnodup.1 (List.mem_map.mpr ⟨t, ht, h1⟩)
    · exact hout t (List.mem_cons_of_mem _ ht) h2

/-- C4 — Dedup stability and idempotence: `removeDuplicates` returns a
subsequence of its input (so input order is preserved); for every id the
output restricted to that id is exactly the first input occurrence of that id
(so concatenating two batches that share an id keeps only the copy from the
first batch); and the pass is idempotent. -/
theorem dedup_stable_idempotent (L : List Tweet) :
    (removeDuplicates L).Sublist L
    ∧ (∀ x : String,
        (removeDuplicates L).filter (fun t => t.id == x)
          = (L.filter (fun t => t.id == x)).take 1)
    ∧ removeDuplicates (removeDuplicates L) = removeDuplicates L := by
  refine ⟨removeDupAux_sublist [] L, ?_, ?_⟩
  · intro x
    have := removeDupAux_filter_id x L []
    simpa using this
  · unfold removeDuplicates
    apply removeDupAux_fixed
    · intro t _ hc; cases hc
    · exact removeDupAux_ids_nodup L []

/-! ## DeliveryStore: `TweetStorage` (`src/services/tweetStorage.js`)

The `tweets` table is modelled as a map from primary key `id` to a row
holding the saved column snapshot and the `notified` flag.  Only the
error-free I/O path is modelled: the sqlite callbacks reject a promise only
when the database reports an I/O error, and every claim conditions on the
operation completing without a storage error. -/

/-- One row of the `tweets` table: the saved record columns plus the
`notified` flag (`BOOLEAN DEFAULT 0`). -/
structure StoredRow where
  tweet : Tweet
  notified : Bool
deriving DecidableEq

/-- The `tweets` table, keyed by the `id` primary key. -/
def Storage : Type := String → Option StoredRow

/-- A database with no rows (the pipeline never inserts scraped tweets; the
constructor's sample rows are irrelevant to fresh scraped ids and omitted). -/
def emptyStorage : Storage := fun _ => none

/-- `TweetStorage.wasSent(tweetId)`: `SELECT notified FROM tweets WHERE id=?`
then `row ? row.notified === 1 : false`. -/
def wasSent (db : Storage) (tweetId : String) : Bool :=
  match db tweetId with
  | some row => row.notified
  | none => false

/-- `TweetStorage.saveTweet(tweet)`: `INSERT OR REPLACE INTO tweets (...)`.
The column list omits `notified`, so the replaced row gets the column default
`0` — saving resets the flag. -/
def saveTweet (db : Storage) (t : Tweet) : Storage :=
  fun k => if k = t.id then some ⟨t, false⟩ else db k

/-- `TweetStorage.markAsNotified(tweetId)`:
`UPDATE tweets SET notified = 1 WHERE id = ?` — a no-op when no row has that
id (zero changes, no error). -/
def markAsNotified (db : Storage) (tweetId : String) : Storage :=
  fun k => if k = tweetId then (db tweetId).map (fun r => { r with notified := true })
           else db k

/-- `TweetStorage.markAsSent(tweetId, tweetData = null)`: when `tweetData` is
given, `saveTweet` then `markAsNotified`; otherwise just `markAsNotified`. -/
def markAsSent (db : Storage) (tweetId : String) (tweetData : Option Tweet) :
    Storage :=
  match tweetData with
  | some t => markAsNotified (saveTweet db t) tweetId
  | none => markAsNotified db tweetId

/-- C3 — markDelivered idempotence: for a record carrying the given id,
one `markAsSent(id, record)` call makes `wasSent(id)` true immediately
afterwards; a second identical call leaves the whole store state unchanged
(the persist is an upsert keyed on id, so nothing is duplicated and the
error-free path is total), and `wasSent(id)` is still true. -/
theorem markDelivered_idempotent (db : Storage) (tid : String) (rec : Tweet)
    (h : rec.id = tid) :
    wasSent (markAsSent db tid (some rec)) tid = true
    ∧ markAsSent (markAsSent db tid (some rec)) tid (some rec)
        = markAsSent db tid (some rec)
    ∧ wasSent (markAsSent (markAsSent db tid (some rec)) tid (some rec)) tid
        = true := by
  subst h
  have h1 : wasSent (markAsSent db rec.id (some rec)) rec.id = true := by
    simp [markAsSent, markAsNotified, saveTweet, wasSent]
  have h2 : markAsSent (markAsSent db rec.id (some rec)) rec.id (some rec)
      = markAsSent db rec.id (some rec) := by
    funext k
    by_cases hk : k = rec.id
    · subst hk
      simp [markAsSent, markAsNotified, saveTweet]
    · simp [markAsSent, markAsNotified, saveTweet, hk]
  exact ⟨h1, h2, by rw [h2]; exact h1⟩

/-- Witness for C3: marking the record `t1` twice in an empty store keeps
`wasSent "t1"` true and changes nothing the second time. -/
theorem markDelivered_idempotent_witness :
    wasSent (markAsSent emptyStorage "t1"
      (some ⟨"t1", "hello", "alice", "https://example.com/1", 0, "nitter", 3, 1⟩)) "t1" = true
    ∧ markAsSent (markAsSent emptyStorage "t1"
        (some ⟨"t1", "hello", "alice", "https://example.com/1", 0, "nitter", 3, 1⟩)) "t1"
        (some ⟨"t1", "hello", "alice", "https://example.com/1", 0, "nitter", 3, 1⟩)
        = markAsSent emptyStorage "t1"
            (some ⟨"t1", "hello", "alice", "https://example.com/1", 0, "nitter", 3, 1⟩)
    ∧ wasSent (markAsSent (markAsSent emptyStorage "t1"
        (some ⟨"t1", "hello", "alice", "https://example.com/1", 0, "nitter", 3, 1⟩)) "t1"
        (some ⟨"t1", "hello", "alice", "https://example.com/1", 0, "nitter", 3, 1⟩)) "t1"
        = true :=
  markDelivered_idempotent emptyStorage "t1"
    ⟨"t1", "hello", "alice", "https://example.com/1", 0, "nitter", 3, 1⟩ rfl

/-! ## DedupFilter against the store: `PodhaTwitterListener.filterNewTweets` -/

/-- `filterNewTweets(tweets)`: the sequential loop keeping the tweets whose
id the store has not marked as sent. -/
def filterNewTweets (db : Storage) : List Tweet → List Tweet
  | [] => []
  | t :: rest =>
    if wasSent db t.id then filterNewTweets db rest
    else t :: filterNewTweets db rest

/-- C5 — Unseen filter correctness: the output is a subsequence of the input
(relative order preserved), and a tweet is in the output exactly when it is
in the input and its id is not marked sent in the store — so every
already-delivered record is absent and every undelivered one is present. -/
theorem unseen_filter_correctness (db : Storage) (ts : List Tweet) :
    (filterNewTweets db ts).Sublist ts
    ∧ ∀ t : Tweet, (t ∈ filterNewTweets db ts ↔ t ∈ ts ∧ wasSent db t.id = false) := by
  induction ts with
  | nil => exact ⟨List.Sublist.refl _, by simp [filterNewTweets]⟩
  | cons u rest ih =>
    constructor
    · unfold filterNewTweets
      by_cases h : wasSent db u.id
      · rw [if_pos h]; exact ih.1.cons u
      · rw [if_neg h]; exact ih.1.cons₂ u
    · intro t
      unfold filterNewTweets
      by_cases h : wasSent db u.id
      · rw [if_pos h]
        rw [ih.2 t]
        constructor
        · rintro ⟨ht, hw⟩
          exact ⟨List.mem_cons_of_mem _ ht, hw⟩
        · rintro ⟨ht, hw⟩
          rcases List.mem_cons.mp ht with rfl | ht2
          · rw [h] at hw; cases hw
          · exact ⟨ht2, hw⟩
      · rw [if_neg h]
        rw [Bool.not_eq_true] at h
        constructor
        · intro ht
          rcases List.mem_cons.mp ht with rfl | ht2
          · exact ⟨List.mem_cons_self _ _, h⟩
          · rcases (ih.2 t).mp ht2 with ⟨ht3, hw⟩
            exact ⟨List.mem_cons_of_mem _ ht3, hw⟩
        · rintro ⟨ht, hw⟩
          rcases List.mem_cons.mp ht with rfl | ht2
          · exact List.mem_cons_self _ _
          · exact List.mem_cons_of_mem _ ((ih.2 t).mpr ⟨ht2, hw⟩)

/-! ## QuerySimplifier: `simplifyQuery`
(`TwitterScraper.simplifyQuery`, cap 3, and `FilterEngine.simplifyQuery`,
cap 2 — same body otherwise) -/

/-- Whitespace, as matched by the JavaScript `\s` class on the characters
that occur in search queries. -/
def isWs (c : Char) : Bool :=
  c = ' ' || c = '\t' || c = '\n' || c = '\r'

/-- The scan behind `query.match(/"([^"]+)"/g)`, with the quotes stripped:
the bodies of the non-overlapping quoted substrings, scanned left to right;
an empty body does not match (the `+`), and the closing quote of a failed
attempt can serve as the next opening quote.  The structural `fuel` argument
(instantiated with the input length, which every recursive call stays below)
only makes the recursion structural so that the function evaluates by
reduction. -/
def findQuotedF : Nat → List Char → List (List Char)
  | 0, _ => []
  | _, [] => []
  | fuel + 1, c :: rest =>
    if c = '"' then
      let body := rest.takeWhile (fun d => !(d = '"'))
      match rest.dropWhile (fun d => !(d = '"')) with
      | '"' :: tail =>
        if body.isEmpty then findQuotedF fuel rest
        else body :: findQuotedF fuel tail
      | _ => findQuotedF fuel rest
    else findQuotedF fuel rest

/-- `query.match(/"([^"]+)"/g)` with the quotes stripped. -/
def findQuoted (cs : List Char) : List (List Char) :=
  findQuotedF cs.length cs

/-- The scan behind `query.split(/\s+/)` (same fuel device): split at each
maximal whitespace run, keeping the (possibly empty) pieces between runs —
leading or trailing whitespace yields an empty piece, exactly as the
JavaScript split does. -/
def splitWsF : Nat → List Char → List Char → List (List Char)
  | 0, _, acc => [acc.reverse]
  | _, [], acc => [acc.reverse]
  | fuel + 1, c :: rest, acc =>
    if isWs c then acc.reverse :: splitWsF fuel (rest.dropWhile isWs) []
    else splitWsF fuel rest (c :: acc)

/-- `query.split(/\s+/)`. -/
def splitWs (cs : List Char) : List (List Char) :=
  splitWsF cs.length cs []

/-- `needle` occurs at the start of `hay` (JS `String.startsWith`). -/
def startsWithChars : List Char → List Char → Bool
  | _, [] => true
  | [], _ :: _ => false
  | h :: t, n :: ns => h = n && startsWithChars t ns

/-- `hay.includes(needle)` (JS substring containment). -/
def containsSub (hay needle : List Char) : Bool :=
  match hay with
  | [] => needle.isEmpty
  | _ :: t => startsWithChars hay needle || containsSub t needle

/-- The per-word test of the second extraction pass: drop words containing
`filter:` or `min_faves:`, the exact tokens `AND`, `OR`, `(`, `)`, and words
starting with a double quote. -/
def keepWord (w : List Char) : Bool :=
  !(containsSub w "filter:".data)
  && !(containsSub w "min_faves:".data)
  && !(w = "AND".data || w = "OR".data || w = "(".data || w = ")".data)
  && !(startsWithChars w "\"".data)

/-- The `keywords` array after both extraction passes: all quoted-phrase
bodies (in order of appearance), then all kept plain words (in order of
appearance). -/
def extractKeywords (query : String) : List (List Char) :=
  findQuoted query.data ++ (splitWs query.data).filter keepWord

/-- `keywords.join(' ')`. -/
def joinSpace : List (List Char) → List Char
  | [] => []
  | [w] => w
  | w :: ws => w ++ ' ' :: joinSpace ws

/-- `TwitterScraper.simplifyQuery(query)`: `keywords.slice(0, 3).join(' ')`. -/
def simplifyQuery (query : String) : String :=
  ⟨joinSpace ((extractKeywords query).take 3)⟩

/-- `FilterEngine.simplifyQuery(query)`: same, but `slice(0, 2)`. -/
def simplifyQueryFE (query : String) : String :=
  ⟨joinSpace ((extractKeywords query).take 2)⟩

/-- C6 — Simplifier algorithm: both simplifiers are pure functions of the
query (hence deterministic); the term list is the quoted-phrase bodies in
order of appearance followed by the kept plain tokens in order of
appearance, truncated to the call site's cap (3 in the scraper, 2 in the
filter engine), so the output term count never exceeds the cap; and on the
spec's sample query the scraper simplifier yields the three terms
`RWA Yield Podha`. -/
theorem simplifier_cap (query : String) :
    simplifyQuery query
      = ⟨joinSpace ((findQuoted query.data
          ++ (splitWs query.data).filter keepWord).take 3)⟩
    ∧ simplifyQueryFE query
      = ⟨joinSpace ((findQuoted query.data
          ++ (splitWs query.data).filter keepWord).take 2)⟩
    ∧ ((extractKeywords query).take 3).length ≤ 3
    ∧ ((extractKeywords query).take 2).length ≤ 2
    ∧ simplifyQuery
        "filter:blue_verified min_faves:3 Podha AND (\"RWA\" OR \"Yield\")"
        = "RWA Yield Podha" :=
  ⟨rfl, rfl, List.length_take_le 3 _, List.length_take_le 2 _, by decide⟩

/-! ## Notification sink: `DiscordNotifier` (`discordNotifier.js`) -/

/-- The outcome of the `axios.post` transport call, which is external to the
embedded code: it either succeeds or fails with an error message. -/
inductive HttpResult where
  | ok
  | fail (msg : String)
deriving DecidableEq

/-- The object `DiscordNotifier.sendTweetNotification` resolves with:
`{success: true, ...}` or `{success:false, error}`. -/
structure NotifyResult where
  success : Bool
  error : Option String
deriving DecidableEq

/-- `DiscordNotifier.sendTweet(tweet)` = `sendTweetNotification(tweet)`: with
no configured webhook it returns a soft failure; otherwise the whole embed
construction and post sit inside `try`/`catch`, so a transport failure is
caught and also returned as a soft failure.  The function is total — the
promise always resolves, never rejects. -/
def sendTweetNotification (webhookUrl : Option String) (transport : HttpResult)
    (_tweet : Tweet) : NotifyResult :=
  match webhookUrl with
  | none => ⟨false, some "Webhook not configured"⟩
  | some _ =>
    match transport with
    | .ok => ⟨true, none⟩
    | .fail m => ⟨false, some m⟩

/-! ## DeliveryPipeline: `PodhaTwitterListener.runWorkflow` (`src/index.js`) -/

/-- The delivery loop body of `runWorkflow`: for each new tweet, invoke the
Discord sink (`transport` gives the per-tweet transport outcome; the awaited
result object is discarded by the loop, exactly as in the source) and call
`markAsSent(tweet.id)` — with no `tweetData` argument, as in the source.
`rateLimiter.waitForLimit` only reads the counter state and sleeps, so it
contributes no state change. -/
def deliverAll (webhookUrl : Option String) (transport : String → HttpResult)
    (db : Storage) : List Tweet → Storage
  | [] => db
  | t :: rest =>
    let _result := sendTweetNotification webhookUrl (transport t.id) t
    deliverAll webhookUrl transport (markAsSent db t.id none) rest

/-- One `runWorkflow` pass after the fetch loop, with the accumulated fetch
results passed in: dedup, filter against the store, deliver each new tweet,
returning the updated store and the list of tweets that were delivered. -/
def runWorkflowStep (webhookUrl : Option String) (transport : String → HttpResult)
    (db : Storage) (fetched : List Tweet) : Storage × List Tweet :=
  let newTweets := filterNewTweets db (removeDuplicates fetched)
  (deliverAll webhookUrl transport db newTweets, newTweets)

/-- C1 — At-most-once redelivery across runs: REFUTED on the code.  The
pipeline calls `markAsSent(tweet.id)` without the tweet record and never
calls `saveTweet`, so for a scraped id with no pre-existing row the
`UPDATE tweets SET notified = 1` matches zero rows and completes without
error, `wasSent` stays `false`, and the identical fetch in the next run
delivers the same id again.  Concretely: a first run over the single tweet
`x1` delivers it, yet `wasSent "x1"` is still `false` afterwards and a second
run delivers `x1` once more. -/
theorem delivery_not_persisted :
    (runWorkflowStep none (fun _ => HttpResult.ok) emptyStorage
        [⟨"x1", "hello", "alice", "https://example.com/x1", 0, "nitter", 5, 1⟩]).2
      = [⟨"x1", "hello", "alice", "https://example.com/x1", 0, "nitter", 5, 1⟩]
    ∧ wasSent (runWorkflowStep none (fun _ => HttpResult.ok) emptyStorage
        [⟨"x1", "hello", "alice", "https://example.com/x1", 0, "nitter", 5, 1⟩]).1 "x1"
      = false
    ∧ (runWorkflowStep none (fun _ => HttpResult.ok)
        (runWorkflowStep none (fun _ => HttpResult.ok) emptyStorage
          [⟨"x1", "hello", "alice", "https://example.com/x1", 0, "nitter", 5, 1⟩]).1
        [⟨"x1", "hello", "alice", "https://example.com/x1", 0, "nitter", 5, 1⟩]).2
      = [⟨"x1", "hello", "alice", "https://example.com/x1", 0, "nitter", 5, 1⟩] :=
  ⟨rfl, rfl, rfl⟩

/-- C10 — the sink call never rejects, and a sink failure alone never aborts
the delivery loop: every failure mode yields a resolved `{success:false,
error}` object; `success` is true exactly when a webhook is configured and
the transport succeeded; and the loop's outcome (the final store) is
independent of the webhook configuration and of every per-tweet transport
outcome, because the source discards the awaited result. -/
theorem sink_soft_fail (webhookUrl : Option String) (transport : HttpResult)
    (t : Tweet) :
    (webhookUrl = none →
      sendTweetNotification webhookUrl transport t
        = ⟨false, some "Webhook not configured"⟩)
    ∧ (∀ m : String, transport = .fail m → ∀ u : String, webhookUrl = some u →
        sendTweetNotification webhookUrl transport t = ⟨false, some m⟩)
    ∧ ((sendTweetNotification webhookUrl transport t).success = true
        ↔ webhookUrl.isSome ∧ transport = .ok)
    ∧ (∀ (w1 w2 : Option String) (p1 p2 : String → HttpResult) (db : Storage)
          (ts : List Tweet),
        deliverAll w1 p1 db ts = deliverAll w2 p2 db ts) := by
  refine ⟨?_, ?_, ?_, ?_⟩
  · rintro rfl; rfl
  · rintro m rfl u rfl; rfl
  · cases webhookUrl <;> cases transport <;>
      simp [sendTweetNotification]
  · intro w1 w2 p1 p2 db ts
    induction ts generalizing db with
    | nil => rfl
    | cons u rest ih => exact ih (markAsSent db u.id none)

/-- Witness for C10: with no webhook configured the sink resolves with a
soft failure object. -/
theorem sink_soft_fail_witness :
    sendTweetNotification none HttpResult.ok
        ⟨"t1", "hi", "bob", "https://example.com/t1", 0, "demo", 3, 0⟩
      = ⟨false, some "Webhook not configured"⟩ :=
  (sink_soft_fail none HttpResult.ok
    ⟨"t1", "hi", "bob", "https://example.com/t1", 0, "demo", 3, 0⟩).1 rfl

/-- The full application state around `runWorkflow`: the mutual-exclusion
flag `this.isRunning` and the store. -/
structure AppState where
  isRunning : Bool
  db : Storage

/-- `runWorkflow()`: a trigger while `isRunning` returns immediately (logged,
no state touched); otherwise the flag is set, the body runs, and the
`finally` clause clears the flag whatever happens.  `failAfter = some n`
abstracts the body exiting with an exception after `n` records of the
delivery loop were processed (e.g. a storage or secondary-logger rejection);
the exception propagates to the caller (`Except.error`) after `finally`
clears the flag. -/
def runWorkflow (s : AppState) (webhookUrl : Option String)
    (transport : String → HttpResult) (fetched : List Tweet)
    (failAfter : Option Nat) : AppState × Except Unit (List Tweet) :=
  if s.isRunning then (s, Except.ok [])
  else
    let newTweets := filterNewTweets s.db (removeDuplicates fetched)
    match failAfter with
    | none =>
      (⟨false, deliverAll webhookUrl transport s.db newTweets⟩, Except.ok newTweets)
    | some n =>
      (⟨false, deliverAll webhookUrl transport s.db (newTweets.take n)⟩,
        Except.error ())

/-- C9 — Run mutual exclusion: a trigger arriving while a run is in progress
returns immediately with no fetch, no delivery and no store mutation (the
returned state is the input state, nothing is delivered, and no error is
raised); and whenever a run actually starts, the mutual-exclusion flag is
false afterwards, whether the body completed or exited with an exception. -/
theorem run_mutual_exclusion :
    (∀ (s : AppState) (w : Option String) (p : String → HttpResult)
        (fetched : List Tweet) (failAfter : Option Nat),
      s.isRunning = true →
        runWorkflow s w p fetched failAfter = (s, Except.ok []))
    ∧ (∀ (s : AppState) (w : Option String) (p : String → HttpResult)
        (fetched : List Tweet) (failAfter : Option Nat),
      s.isRunning = false →
        ((runWorkflow s w p fetched failAfter).1).isRunning = false) := by
  constructor
  · intro s w p fetched failAfter h
    simp [runWorkflow, h]
  · intro s w p fetched failAfter h
    cases failAfter <;> simp [runWorkflow, h]

/-- Witness for C9: a trigger on a running state is the identity no-op, and a
run that exits with an exception still ends with the flag cleared. -/
theorem run_mutual_exclusion_witness :
    runWorkflow ⟨true, emptyStorage⟩ none (fun _ => HttpResult.ok) [] none
      = (⟨true, emptyStorage⟩, Except.ok [])
    ∧ ((runWorkflow ⟨false, emptyStorage⟩ none (fun _ => HttpResult.ok)
        [⟨"t9", "hi", "bob", "https://example.com/t9", 0, "demo", 3, 0⟩]
        (some 0)).1).isRunning = false :=
  ⟨run_mutual_exclusion.1 ⟨true, emptyStorage⟩ none (fun _ => HttpResult.ok) [] none rfl,
   run_mutual_exclusion.2 ⟨false, emptyStorage⟩ none (fun _ => HttpResult.ok)
     [⟨"t9", "hi", "bob", "https://example.com/t9", 0, "demo", 3, 0⟩] (some 0) rfl⟩

/-! ## SourceFetcher fallback: `TwitterScraper.searchWithNitter` and
`TwitterScraper.createDemoTweets` (`twitterScraper.js`) -/

/-- `createDemoTweets(query)`: the fixed set of three placeholder records
whose `text` interpolates the (already simplified) query, with engagement
counts 15/8, 42/23 and 28/12, timestamps 1, 2 and 3 hours into the past, and
`source: 'demo'` — the synthetic tag.  `nowMs` is `Date.now()`. -/
def createDemoTweets (query : String) (nowMs : Int) : List Tweet :=
  [ { id := "demo_" ++ toString nowMs ++ "_1",
      text := "Just discovered some amazing insights about " ++ query
        ++ "! This could be a game-changer for the industry. #Innovation #Tech",
      author := "tech_enthusiast",
      url := "https://twitter.com/tech_enthusiast/status/demo_1",
      timestamp := nowMs - 3600000,
      source := "demo", likes := 15, retweets := 8 },
    { id := "demo_" ++ toString nowMs ++ "_2",
      text := "Breaking: Major developments in " ++ query
        ++ " space. Industry experts are calling this revolutionary! 🚀",
      author := "crypto_news",
      url := "https://twitter.com/crypto_news/status/demo_2",
      timestamp := nowMs - 7200000,
      source := "demo", likes := 42, retweets := 23 },
    { id := "demo_" ++ toString nowMs ++ "_3",
      text := "Interesting analysis on " ++ query
        ++ " trends. The data shows significant growth potential in this sector.",
      author := "market_analyst",
      url := "https://twitter.com/market_analyst/status/demo_3",
      timestamp := nowMs - 10800000,
      source := "demo", likes := 28, retweets := 12 } ]

/-- `TwitterScraper.searchWithNitter(query)`.  The axios GET plus cheerio
parse of the proxy page is external; `live = none` is the caught transport
error, `live = some items` the parsed item list.  A transport error or a
zero-item parse falls through to `createDemoTweets` on the simplified query
(both branches simplify the same original query); a non-empty parse is
returned as is. -/
def searchWithNitter (query : String) (live : Option (List Tweet))
    (nowMs : Int) : List Tweet :=
  match live with
  | none => createDemoTweets (simplifyQuery query) nowMs
  | some tweets =>
    if tweets.length = 0 then createDemoTweets (simplifyQuery query) nowMs
    else tweets

/-- C8 — Fallback guarantee: with the proxy source configured, when the live
fetch errors or parses zero items, the search does not throw but returns
exactly 3 placeholder records, each tagged with the synthetic source
`"demo"` and each interpolating the simplified query string into its text.
(`searchTweets` returns this result on its first retry iteration, since this
branch never throws.) -/
theorem fallback_guarantee (query : String) (live : Option (List Tweet))
    (nowMs : Int) (h : live = none ∨ live = some []) :
    (searchWithNitter query live nowMs).length = 3
    ∧ (∀ t ∈ searchWithNitter query live nowMs, t.source = "demo")
    ∧ (∀ t ∈ searchWithNitter query live nowMs,
        ∃ a b : String, t.text = a ++ simplifyQuery query ++ b) := by
  have hdemo : searchWithNitter query live nowMs
      = createDemoTweets (simplifyQuery query) nowMs := by
    rcases h with rfl | rfl <;> rfl
  rw [hdemo]
  refine ⟨rfl, ?_, ?_⟩
  · intro t ht
    simp only [createDemoTweets, List.mem_cons, List.not_mem_nil, or_false] at ht
    rcases ht with rfl | rfl | rfl <;> rfl
  · intro t ht
    simp only [createDemoTweets, List.mem_cons, List.not_mem_nil, or_false] at ht
    rcases ht with rfl | rfl | rfl
    · exact ⟨"Just discovered some amazing insights about ",
        "! This could be a game-changer for the industry. #Innovation #Tech", rfl⟩
    · exact ⟨"Breaking: Major developments in ",
        " space. Industry experts are calling this revolutionary! 🚀", rfl⟩
    · exact ⟨"Interesting analysis on ",
        " trends. The data shows significant growth potential in this sector.", rfl⟩

/-- Witness for C8: a zero-item parse for the query `Podha` at time 0 yields
the three demo records. -/
theorem fallback_guarantee_witness :
    (searchWithNitter "Podha" (some []) 0).length = 3
    ∧ (∀ t ∈ searchWithNitter "Podha" (some []) 0, t.source = "demo")
    ∧ (∀ t ∈ searchWithNitter "Podha" (some []) 0,
        ∃ a b : String, t.text = a ++ simplifyQuery "Podha" ++ b) :=
  fallback_guarantee "Podha" (some []) 0 (Or.inr rfl)

end Podha
